import Mathlib

/-!
Verification development for the selector-extraction routines of
`src/extract-selectors.ts` (rollup-plugin-purgecss-sveltekit).

The four extractors are shallowly embedded as pure Lean functions.  The
external parsers (htmlparser2, acorn, the Svelte compiler) are out of the
core's scope; the extractors are modelled over the parsers' documented
output contracts: a list of attribute events for the markup scanner, a
token stream for the script scanner, and a syntax tree for the template
walker.  Strings are treated as their character sequences (all inputs in
the claims are ASCII).

The shared regular expression `/[\w\-:./![\]]+(?<!:)/` is modelled by an
explicit backtracking-engine semantics: at a candidate start position the
greedy `+` first takes the maximal run of class characters and then
backtracks one repetition at a time until the trailing look-behind
`(?<!:)` (last matched character is not a colon) succeeds; the resulting
match is therefore the maximal run with its trailing colons stripped.
`RegExp.prototype.test` on a non-global regex succeeds iff some start
position yields a match; the global-flagged variant used by the Svelte
walker additionally threads `lastIndex` between calls, which is modelled
explicitly.
-/

/-- Character class `[\w\-:./![\]]` of the shared selector regex
(`\w` is ASCII `[A-Za-z0-9_]`). -/
def classChar (c : Char) : Bool :=
  c.isAlpha || c.isDigit || c == '_' || c == '-' || c == ':' || c == '.' || c == '/' ||
    c == '!' || c == '[' || c == ']'

/-- Strip the maximal suffix of colons from a run of class characters:
this is exactly where the greedy `+` followed by the look-behind `(?<!:)`
settles after backtracking. -/
def dropTrailingColons (l : List Char) : List Char :=
  (l.reverse.dropWhile (fun c => c == ':')).reverse

/-- One attempt of the regex at the current position: take the maximal
run of class characters, backtrack over trailing colons; a non-empty
result is the match, paired with the remaining input after the match. -/
def matchAt (l : List Char) : Option (List Char × List Char) :=
  if (dropTrailingColons (l.takeWhile classChar)).isEmpty then none
  else some (dropTrailingColons (l.takeWhile classChar),
    l.drop (dropTrailingColons (l.takeWhile classChar)).length)

/-- Leftmost match of the regex: try each start position left to right.
Returns `(skipped, matched, rest)` where `skipped` is the number of
characters before the match. -/
def findFirst : List Char → Option (Nat × List Char × List Char)
  | [] => none
  | c :: cs =>
    match matchAt (c :: cs) with
    | some (m, rest) => some (0, m, rest)
    | none => (findFirst cs).map (fun r => (r.1 + 1, r.2))

/-- `/[\w\-:./![\]]+(?<!:)/.test(s)` for the non-global regex used by
`extractSelectorsFromHtml` and `extractSelectorsFromJS`: true iff some
substring of `s` matches. -/
def tokenFilter (s : String) : Bool :=
  (findFirst s.data).isSome

/-- `CLASS_REGEX.test(s)` for the global-flagged regex used inside the
Svelte walker: matching starts at the regex's `lastIndex`; on success the
new `lastIndex` is the end of the match, on failure it resets to 0. -/
def testG (li : Nat) (s : String) : Bool × Nat :=
  match findFirst (s.data.drop li) with
  | some (k, m, _) => (true, li + k + m.length)
  | none => (false, 0)

/-- All matches of the global regex, as produced by
`code.match(TAILWIND_REGEX)`, with fuel (each match consumes at least one
character, so `l.length` fuel suffices). -/
def globalMatchesFuel : Nat → List Char → List (List Char)
  | 0, _ => []
  | fuel + 1, l =>
    match findFirst l with
    | none => []
    | some (_, m, rest) => m :: globalMatchesFuel fuel rest

/-- `code.match(/[\w\-:./![\]]+(?<!:)/g) ?? []`. -/
def globalMatches (l : List Char) : List (List Char) :=
  globalMatchesFuel l.length l

/-- `Set.prototype.add` on an insertion-ordered set represented as a
duplicate-free list. -/
def setAdd (s : List String) (x : String) : List String :=
  if s.contains x then s else s ++ [x]

/-- Pour a list into a fresh JS `Set` and read it back in insertion
order. -/
def jsSetOfList (l : List String) : List String :=
  l.foldl setAdd []

/-- `selector[0] === "." ? selector : "." + selector` — the final
formatting step shared by the html, script and regex extractors. -/
def addDot (s : String) : String :=
  if s.data.head? = some '.' then s else "." ++ s

/-- `extractSelectorsWithRegex`: every global match of the shared regex
over the raw text, deduplicated in insertion order, each prefixed with a
dot unless it already starts with one. -/
def extractSelectorsWithRegex (code : String) : List String :=
  (jsSetOfList ((globalMatches code.data).map (fun m => String.mk m))).map addDot

/-- JS whitespace for `split(/\s+/)` (the claims' inputs only use the
ASCII space character). -/
def isWs (c : Char) : Bool :=
  c.isWhitespace || c == '\x0b' || c == '\x0c'

/-- Worker for `split(/\s+/)`: the flag records whether we are currently
inside a whitespace separator run (in which case the piece accumulator is
empty). -/
def splitWsGo : Bool → List Char → List Char → List String
  | _, [], acc => [String.mk acc.reverse]
  | skipping, c :: cs, acc =>
    if isWs c then
      if skipping then splitWsGo true cs acc
      else String.mk acc.reverse :: splitWsGo true cs []
    else splitWsGo false cs (c :: acc)

/-- JS `s.split(/\s+/)`: split on maximal whitespace runs; a leading or
trailing run contributes an empty piece, and the empty string yields
`[""]`. -/
def jsSplitWs (s : String) : List String :=
  splitWsGo false s.data []

/-- Worker for JS `split` on a one-character separator string. -/
def splitChGo (sep : Char) : List Char → List Char → List String
  | [], acc => [String.mk acc.reverse]
  | c :: cs, acc =>
    if c == sep then String.mk acc.reverse :: splitChGo sep cs []
    else splitChGo sep cs (c :: acc)

/-- JS `s.split(sep)` for a one-character separator: pieces between the
occurrences of `sep`, empty pieces kept, and `""` yields `[""]`. -/
def jsSplitCh (sep : Char) (s : String) : List String :=
  splitChGo sep s.data []

/-- JS `s.trim()`: strip leading and trailing whitespace. -/
def jsTrim (s : String) : String :=
  String.mk ((s.data.dropWhile isWs).reverse.dropWhile isWs).reverse

/-- JS `s.toLowerCase()` (ASCII). -/
def jsToLower (s : String) : String :=
  String.mk (s.data.map Char.toLower)

/-- Modelled from the spec: the claim's characterisation of the shape
filter — the token, as a whole, "matches `[\w\-:./![\]]+` and does not
end in a bare `:`" — read as a full-string match whose last character is
not a colon.  Used only to compare the spec's words with the filter the
source actually computes. -/
def spec_shapeFilter (s : String) : Bool :=
  !s.data.isEmpty && s.data.all classChar && !(s.data.getLast? == some ':')

/-- Modelled from the spec: `src/constants.ts` is not part of the
provided sources; the spec (§4.1, §8) specifies a fixed
reserved-attribute-name list that contains `aria-hidden` and does not
contain `class`, `id` or `data-foo`.  Only those facts are relied on. -/
def ATTRIBUTES : List String := ["aria-hidden"]

/-- One `onattribute(name, value)` callback of `extractSelectorsFromHtml`,
acting on the pair (class-selector set, id set). -/
def htmlStep : List String × List String → String × String → List String × List String
  | (sels, ids), (name, value) =>
    if name = "class" then
      ((jsSplitCh ' ' value).foldl setAdd sels, ids)
    else if name = "id" then
      (sels, setAdd ids value)
    else if ATTRIBUTES.contains name then
      (sels, ids)
    else
      (((jsSplitCh ' ' value).foldl
          (fun s tok => if tokenFilter tok then setAdd s tok else s) sels
        |> fun s => if tokenFilter name then setAdd s name else s), ids)

/-- `extractSelectorsFromHtml`, modelled over the attribute-event stream
that htmlparser2 emits in document order: ids first prefixed `#`, then
class selectors prefixed `.` (unless already dot-prefixed). -/
def extractSelectorsFromHtml (attrs : List (String × String)) : List String :=
  let acc := attrs.foldl htmlStep ([], [])
  acc.2.map (fun i => "#" ++ i) ++ acc.1.map addDot

/-- A lexical token as delivered by acorn's `onToken` callback: its
`type.label` and, for string-literal tokens, its string `value`. -/
structure AcornToken where
  label : String
  value : Option String

/-- `extractSelectorsFromJS`, modelled over the token stream: every
string-literal token's value is split on spaces, tokens passing the shape
filter are collected and dot-prefixed. -/
def extractSelectorsFromJS (tokens : List AcornToken) : List String :=
  (tokens.foldl
    (fun s t =>
      if t.label = "string" then
        match t.value with
        | some v =>
          (jsSplitCh ' ' v).foldl (fun s tok => if tokenFilter tok then setAdd s tok else s) s
        | none => s
      else s)
    []).map addDot

example : tokenFilter "hover:" = true := by decide
example : tokenFilter ":" = false := by decide
example : tokenFilter "::" = false := by decide
example : tokenFilter "w-1/2" = true := by decide
example : jsSplitWs "a  b " = ["a", "b", ""] := by decide
example : jsSplitWs "" = [""] := by decide
example : extractSelectorsWithRegex "hover: x" = [".hover", ".x"] := by decide

/-!
## The Svelte template walker

`extractSelectorsFromSvelte` walks the tree produced by
`svelte/compiler`'s `parse` with the estree-walker `walk`.  The tree is
embedded as an inductive whose constructors carry exactly the fields the
walker's `enter` callback reads; every node kind whose `type` string
matches none of the callback's branches and only contributes its
children to the traversal (Fragment, Script, Program, Style, Rule,
SelectorList, Selector, VariableDeclaration, TemplateLiteral, ...) is
represented by `Node.wrapper`.  Attributes are modelled with their value
part list (a valueless boolean attribute makes the source throw on
`true.map`, so it lies outside the modelled domain).
-/

/-- Runtime value of an estree `Literal` node. -/
inductive JsLit where
  | str (s : String)
  | num (n : Int)
  | bool (b : Bool)
  | nul
deriving DecidableEq

/-- JS truthiness of a literal value, as tested by
`element.right?.value && ...`. -/
def truthy : JsLit → Bool
  | .str s => !(s == "")
  | .num n => !(n == 0)
  | .bool b => b
  | .nul => false

/-- `toArray` from the source: strings are split on whitespace runs (each
piece trimmed, a no-op for whitespace-free pieces); anything else gives
`[]`. -/
def toArray : JsLit → List String
  | .str s => jsSplitWs s
  | _ => []

/-- The syntax-tree shape consumed by the walker. -/
inductive Node where
  | wrapper (children : List Node)
  | element (name : String) (attributes : List Node) (children : List Node)
  | attribute (name : String) (value : List Node)
  | mustacheTag (expression : Node)
  | text (data : String)
  | classDir (name : String) (expression : Node)
  | pseudoClassSelector (name : String) (children : List Node)
  | cssRaw (value : String)
  | varDeclarator (id : Node) (init : Option Node)
  | identifier (name : String)
  | callExpression (callee : Node) (arguments : List Node)
  | memberExpression (object : Node) (property : Node)
  | arrayExpression (elements : List Node)
  | logicalExpression (left : Node) (right : Node)
  | literal (value : JsLit)
  | templateElement (raw : String)

/-- `parent.init` — present only on `VariableDeclarator` nodes. -/
def getInit : Node → Option Node
  | .varDeclarator _ init => init
  | _ => none

/-- `node.value` — present only on `Literal` nodes. -/
def getValue : Node → Option JsLit
  | .literal v => some v
  | _ => none

/-- The walker's mutable collections: the selector map (JS `Map`,
insertion-ordered, last-write-wins on the tag), the pending identifier
set (JS `Set`), and the identifier binding table `ids`. -/
structure WState where
  selectors : List (String × String)
  identifiers : List String
  ids : List (String × List String)
deriving DecidableEq

/-- `Map.prototype.set`: update in place if the key is present (keeping
its position), else append. -/
def mapSet (m : List (String × α)) (k : String) (v : α) : List (String × α) :=
  if m.any (fun p => p.1 == k) then m.map (fun p => if p.1 == k then (k, v) else p)
  else m ++ [(k, v)]

/-- `Set.prototype.add` for the pending identifier set. -/
def idAdd (s : List String) (x : String) : List String :=
  setAdd s x

/-- The `Identifier` branch of `enter`: bind the identifier when its
parent's initializer is a literal, or a call expression whose callee is a
member access on an array literal whose elements are literals or logical
expressions with truthy literal right-hand sides. -/
def enterIdentifier (name : String) (parent : Option Node) (st : WState) : WState :=
  let init := parent.bind getInit
  let st :=
    match init with
    | some (.literal v) => { st with ids := mapSet st.ids name (toArray v) }
    | _ => st
  match init with
  | some (.callExpression callee _) =>
    match callee with
    | .memberExpression (.arrayExpression elements) _ =>
      elements.foldl
        (fun a el =>
          match el with
          | .literal v => { a with ids := mapSet a.ids name (toArray v) }
          | .logicalExpression _ right =>
            match getValue right with
            | some v => if truthy v then { a with ids := mapSet a.ids name (toArray v) } else a
            | none => a
          | _ => a)
        st
    | _ => st
  | _ => st

/-- Processing of an attribute's value parts (shared by the
`class`-attribute branch and the generic attribute branch): a
`MustacheTag` over a bare identifier records the identifier, a `Text`
part is split on whitespace, empty tokens filtered, and each remaining
token tested with the shared global-flagged `CLASS_REGEX` — whose
`lastIndex` is threaded through all tests made during this `enter`
call. -/
def processValueParts (parts : List Node) (st : WState × Nat) : WState × Nat :=
  parts.foldl
    (fun acc part =>
      match part with
      | .mustacheTag (.identifier n) => ({ acc.1 with identifiers := idAdd acc.1.identifiers n }, acc.2)
      | .text data =>
        ((jsSplitWs data).filter (fun t => !(t == ""))).foldl
          (fun a tok =>
            let r := testG a.2 tok
            if r.1 then ({ a.1 with selectors := mapSet a.1.selectors tok "Class" }, r.2)
            else (a.1, r.2))
          acc
      | _ => acc)
    st

/-- The `enter` callback, with a fresh `CLASS_REGEX` (so `lastIndex`
starts at 0) per call; its branches are applied in source order. -/
def enter (node : Node) (parent : Option Node) (st : WState) : WState :=
  match node with
  | .identifier name => enterIdentifier name parent st
  | .element name _ _ => { st with selectors := mapSet st.selectors name "Element" }
  | .attribute name parts =>
    let s1 := if name = "class" then processValueParts parts (st, 0) else (st, 0)
    let s2 := ({ s1.1 with selectors := mapSet s1.1.selectors name "Attribute" }, s1.2)
    (processValueParts parts s2).1
  | .classDir name _ => { st with selectors := mapSet st.selectors name "Class" }
  | .pseudoClassSelector pname children =>
    if pname = "global" then
      match children.head? with
      | some (.cssRaw v) =>
        (jsSplitCh ',' v).foldl
          (fun a sel => { a with selectors := mapSet a.selectors (jsTrim sel) "PseudoClassSelector" }) st
      | _ => st
    else st
  | .literal (.str s) =>
    ((jsSplitWs s).filter (fun t => !(t == ""))).foldl
      (fun a tok =>
        if jsToLower tok = tok then { a with selectors := mapSet a.selectors tok "Class" } else a)
      st
  | .templateElement raw =>
    (((jsSplitWs raw).filter (fun t => !(t == ""))).foldl
      (fun a tok =>
        let r := testG a.2 tok
        if r.1 then ({ a.1 with selectors := mapSet a.1.selectors tok "Class" }, r.2)
        else (a.1, r.2))
      (st, 0)).1
  | _ => st

/-- The children estree-walker visits for each node kind, in the key
order of the underlying objects. -/
def children : Node → List Node
  | .wrapper cs => cs
  | .element _ attrs cs => attrs ++ cs
  | .attribute _ parts => parts
  | .mustacheTag e => [e]
  | .text _ => []
  | .classDir _ e => [e]
  | .pseudoClassSelector _ cs => cs
  | .cssRaw _ => []
  | .varDeclarator id init => id :: init.toList
  | .identifier _ => []
  | .callExpression callee args => callee :: args
  | .memberExpression o p => [o, p]
  | .arrayExpression els => els
  | .logicalExpression l r => [l, r]
  | .literal _ => []
  | .templateElement _ => []

/-- Depth-first preorder walk (the source only installs an `enter`
visitor), as a fuelled worklist so the function is structurally
recursive; each step consumes one node, so any fuel bounding the node
count is exact. -/
def walkAll : Nat → List (Option Node × Node) → WState → WState
  | 0, _, st => st
  | _, [], st => st
  | fuel + 1, (p, n) :: rest, st =>
    walkAll fuel ((children n).map (fun c => (some n, c)) ++ rest) (enter n p st)

/-- Modelled from the spec: `src/constants.ts` is not part of the
provided sources; the spec's final-formatting rule (§4.4) prefixes a dot
exactly for the tags Class, ClassDirective and FromIdentifier, and the
source stores class-directive targets under the tag string "Class", so
the list of dot-prefixed tag strings is `["Class", "FromIdentifier"]`. -/
def CLASS_SELECTOR : List String := ["Class", "FromIdentifier"]

/-- Resolution of one pending identifier against the binding table:
if bound, each bound token is written to the selector map tagged
`FromIdentifier`; otherwise the map is left untouched. -/
def resolveStep (ids : List (String × List String)) (sels : List (String × String))
    (i : String) : List (String × String) :=
  match ids.lookup i with
  | some vs => vs.foldl (fun s v => mapSet s v "FromIdentifier") sels
  | none => sels

/-- The post-traversal resolution pass over the pending identifier
set. -/
def resolveIdentifiers (st : WState) : List (String × String) :=
  st.identifiers.foldl (resolveStep st.ids) st.selectors

/-- `extractSelectorsFromSvelte`, modelled over the parsed tree's roots
(the `html`, `css` and `instance` values of the parse result): walk,
resolve pending identifiers, then format — a dot prefix exactly for tags
in `CLASS_SELECTOR`. -/
def extractSelectorsFromSvelte (roots : List Node) : List String :=
  let st := walkAll 100000 (roots.map (fun r => (none, r))) ⟨[], [], []⟩
  (resolveIdentifiers st).map (fun p => if CLASS_SELECTOR.contains p.2 then "." ++ p.1 else p.1)

/-!
## Concrete parse trees for the claims' inputs

Each tree below is the documented output of the out-of-scope parser
(`svelte/compiler`'s `parse`) on the quoted template, restricted to the
node kinds of the embedding.
-/

/-- Parse tree of `<div class="ab c"></div>`: an html fragment holding
one element with a `class` attribute whose value is the single text part
`"ab c"`. -/
def claim2Ast : List Node :=
  [.wrapper [.element "div" [.attribute "class" [.text "ab c"]] []]]

/-- Parse tree of a template with markup `<div class={x}>` and instance
script `const x = cva(["a b", cond && "c d"]);`. -/
def claim3Ast : List Node :=
  [.wrapper [.element "div" [.attribute "class" [.mustacheTag (.identifier "x")]] []],
   .wrapper [.wrapper [.wrapper
     [.varDeclarator (.identifier "x")
       (some (.callExpression (.identifier "cva")
         [.arrayExpression
           [.literal (.str "a b"),
            .logicalExpression (.identifier "cond") (.literal (.str "c d"))]]))]]]]

/-- Parse tree of a style block containing the rule
`:global(.foo, .bar) { ... }`: the pseudo-class selector's first child
is the raw text between the parentheses. -/
def claim6Ast : List Node :=
  [.wrapper [.pseudoClassSelector "global" [.cssRaw ".foo, .bar"]]]

/-- Same with raw content `:::, .bar`, whose first selector the shape
filter rejects outright (it is made of bare colons only). -/
def claim6AstColons : List Node :=
  [.wrapper [.pseudoClassSelector "global" [.cssRaw ":::, .bar"]]]

/-- Parse tree of `<div class={undeclaredVar}>` with no declaration of
`undeclaredVar` anywhere. -/
def claim7Ast : List Node :=
  [.wrapper [.element "div" [.attribute "class" [.mustacheTag (.identifier "undeclaredVar")]] []]]

/-!
## Helper lemmas
-/

theorem dropWhile_head?_false {α : Type} {p : α → Bool} :
    ∀ {l : List α} {a : α}, (l.dropWhile p).head? = some a → p a = false := by
  intro l
  induction l with
  | nil => intro a h; simp [List.dropWhile] at h
  | cons c cs ih =>
    intro a h
    rw [List.dropWhile_cons] at h
    split at h
    · exact ih h
    · next hc =>
      simp only [List.head?_cons, Option.some.injEq] at h
      subst h
      exact Bool.eq_false_iff.mpr hc

theorem length_dropWhile_le {α : Type} (p : α → Bool) :
    ∀ l : List α, (l.dropWhile p).length ≤ l.length := by
  intro l
  induction l with
  | nil => simp [List.dropWhile]
  | cons c cs ih =>
    rw [List.dropWhile_cons]
    split
    · exact Nat.le_trans ih (Nat.le_succ _)
    · exact Nat.le_refl _

theorem length_takeWhile_le {α : Type} (p : α → Bool) :
    ∀ l : List α, (l.takeWhile p).length ≤ l.length := by
  intro l
  induction l with
  | nil => simp [List.takeWhile]
  | cons c cs ih =>
    rw [List.takeWhile_cons]
    split
    · simpa using ih
    · simp

theorem dropTrailingColons_getLast (l : List Char) :
    (dropTrailingColons l).getLast? ≠ some ':' := by
  unfold dropTrailingColons
  rw [List.getLast?_eq_head?_reverse, List.reverse_reverse]
  intro h
  have := dropWhile_head?_false h
  simp at this

theorem dropTrailingColons_length_le (l : List Char) :
    (dropTrailingColons l).length ≤ l.length := by
  unfold dropTrailingColons
  rw [List.length_reverse]
  calc (l.reverse.dropWhile (fun c => c == ':')).length
      ≤ l.reverse.length := length_dropWhile_le _ _
    _ = l.length := List.length_reverse l

theorem matchAt_some {l m rest : List Char} (h : matchAt l = some (m, rest)) :
    m ≠ [] ∧ m.getLast? ≠ some ':' ∧ rest.length < l.length := by
  unfold matchAt at h
  split at h
  · exact absurd h (by simp)
  · next hne =>
    simp only [Option.some.injEq, Prod.mk.injEq] at h
    obtain ⟨rfl, rfl⟩ := h
    have hnil : dropTrailingColons (l.takeWhile classChar) ≠ [] := by
      intro hc
      rw [hc] at hne
      exact hne rfl
    have hlen1 : 1 ≤ (dropTrailingColons (l.takeWhile classChar)).length :=
      Nat.succ_le_of_lt (List.length_pos.mpr hnil)
    have hlen2 : (dropTrailingColons (l.takeWhile classChar)).length ≤ l.length :=
      Nat.le_trans (dropTrailingColons_length_le _) (length_takeWhile_le _ _)
    refine ⟨hnil, dropTrailingColons_getLast _, ?_⟩
    rw [List.length_drop]
    omega

theorem findFirst_some :
    ∀ {l : List Char} {k : Nat} {m rest : List Char},
      findFirst l = some (k, m, rest) → m ≠ [] ∧ m.getLast? ≠ some ':' ∧ rest.length < l.length := by
  intro l
  induction l with
  | nil =>
    intro k m rest h
    rw [show findFirst [] = none from rfl] at h
    exact Option.noConfusion h
  | cons c cs ih =>
    intro k m rest h
    rw [show findFirst (c :: cs)
        = (match matchAt (c :: cs) with
          | some (m, rest) => some (0, m, rest)
          | none => (findFirst cs).map (fun r => (r.1 + 1, r.2))) from rfl] at h
    split at h
    · next m' rest' heq =>
      simp only [Option.some.injEq, Prod.mk.injEq] at h
      obtain ⟨-, rfl, rfl⟩ := h
      exact matchAt_some heq
    · next heq =>
      rw [Option.map_eq_some'] at h
      obtain ⟨⟨k', m', rest'⟩, hfind, hval⟩ := h
      simp only [Prod.mk.injEq] at hval
      obtain ⟨-, rfl, rfl⟩ := hval
      have := ih hfind
      exact ⟨this.1, this.2.1, Nat.lt_trans this.2.2 (Nat.lt_succ_self _)⟩

theorem globalMatchesFuel_shape :
    ∀ (fuel : Nat) (l : List Char), l.length ≤ fuel →
      ∀ m ∈ globalMatchesFuel fuel l, m ≠ [] ∧ m.getLast? ≠ some ':' := by
  intro fuel
  induction fuel with
  | zero =>
    intro l _ m hm
    rw [show globalMatchesFuel 0 l = [] from rfl] at hm
    exact absurd hm (List.not_mem_nil m)
  | succ fuel ih =>
    intro l hl m hm
    rw [show globalMatchesFuel (fuel + 1) l
        = (match findFirst l with
          | none => []
          | some (_, m, rest) => m :: globalMatchesFuel fuel rest) from rfl] at hm
    split at hm
    · simp at hm
    · next k m' rest heq =>
      have hprops := findFirst_some heq
      rcases List.mem_cons.mp hm with rfl | hmem
      · exact ⟨hprops.1, hprops.2.1⟩
      · exact ih rest (by omega) m hmem

theorem mem_setAdd_iff {s : List String} {a x : String} :
    a ∈ setAdd s x ↔ a ∈ s ∨ a = x := by
  unfold setAdd
  split
  · next h =>
    constructor
    · exact Or.inl
    · rintro (h' | rfl)
      · exact h'
      · exact List.elem_iff.mp h
  · simp [List.mem_append]

theorem mem_foldl_setAdd :
    ∀ {xs init : List String} {a : String}, a ∈ xs.foldl setAdd init ↔ a ∈ init ∨ a ∈ xs := by
  intro xs
  induction xs with
  | nil => simp
  | cons x xs ih =>
    intro init a
    rw [List.foldl_cons, ih, mem_setAdd_iff]
    simp only [List.mem_cons]
    tauto

theorem foldl_resolveStep_filter (ids : List (String × List String)) :
    ∀ (l : List String) (sels : List (String × String)),
      l.foldl (resolveStep ids) sels
        = (l.filter (fun i => (ids.lookup i).isSome)).foldl (resolveStep ids) sels := by
  intro l
  induction l with
  | nil => intro sels; rfl
  | cons i l ih =>
    intro sels
    by_cases h : (ids.lookup i).isSome
    · rw [List.foldl_cons, List.filter_cons_of_pos (by simpa using h), List.foldl_cons, ih]
    · have hn : ids.lookup i = none := by
        cases hl : ids.lookup i
        · rfl
        · rw [hl] at h; simp at h
      rw [List.foldl_cons, List.filter_cons_of_neg (by simp [hn]), ih]
      congr 1
      simp [resolveStep, hn]

theorem dotPrepend_data (t : String) : ("." ++ t).data = '.' :: t.data := by
  cases t
  rfl

/-- Attribute-event stream htmlparser2 emits, in document order, for the
markup `<div class="a b" id="x" data-foo="c d" aria-hidden="true">`. -/
def claim4Events : List (String × String) :=
  [("class", "a b"), ("id", "x"), ("data-foo", "c d"), ("aria-hidden", "true")]

/-- Token stream acorn emits for
`const x = "btn btn-primary"; const y = 42;`: only the fourth token is a
string literal; the numeric literal's token has label `num`. -/
def claim5Tokens : List AcornToken :=
  [⟨"const", none⟩, ⟨"name", some "x"⟩, ⟨"=", none⟩, ⟨"string", some "btn btn-primary"⟩,
   ⟨";", none⟩, ⟨"const", none⟩, ⟨"name", some "y"⟩, ⟨"=", none⟩, ⟨"num", none⟩, ⟨";", none⟩,
   ⟨"eof", none⟩]

/-!
## The claims
-/

/-- Claim C1.  The claim states that the shared token-shape filter
accepts exactly the tokens fully matching `[\w\-:./![\]]+` that do not
end in a bare colon, and in particular that `hover:` is rejected.  The
source's filter is `/[\w\-:./![\]]+(?<!:)/.test(T)`: an unanchored
substring test, under which the greedy run backtracks past the trailing
colon and `hover:` is ACCEPTED (the engine matches `hover`), contradicting
the claim; the look-behind only rejects tokens whose class characters are
all colons.  `spec_shapeFilter` is modelled from the claim's words for
comparison. -/
theorem claim1_filter_accepts_trailing_colon :
    tokenFilter "hover:" = true ∧ spec_shapeFilter "hover:" = false
    ∧ tokenFilter "hover:bg-red-500" = true ∧ spec_shapeFilter "hover:bg-red-500" = true
    ∧ tokenFilter "w-1/2" = true ∧ spec_shapeFilter "w-1/2" = true
    ∧ tokenFilter ":" = false ∧ tokenFilter "::" = false := by
  decide

/-- Claim C2.  The claim states that every non-empty whitespace-split
token of a static `class`-attribute text part that passes the token-shape
filter is registered.  In the source `CLASS_REGEX` carries the global
flag, so successive `.test` calls resume from the previous match's
`lastIndex`; on `<div class="ab c">` the test of `"ab"` leaves
`lastIndex = 2`, the test of `"c"` then starts past the end of the token
and fails, and `"c"` — which passes the filter (third conjunct) — is
never registered: the output is exactly `["div", ".ab", "class"]` with no
`".c"`. -/
theorem claim2_class_text_token_dropped :
    extractSelectorsFromSvelte claim2Ast = ["div", ".ab", "class"]
    ∧ tokenFilter "c" = true
    ∧ ".c" ∉ extractSelectorsFromSvelte claim2Ast := by
  refine ⟨by decide, by decide, by decide⟩

/-- Claim C3.  For `const x = cva(["a b", cond && "c d"])` together with
`<div class={x}>`, the returned sequence contains `.a`, `.b`, `.c` and
`.d` (the full output also registers the element name and the attribute
name).  Note the selectors arise from the walker's bare string-literal
rule: the binding branch reads `callee.object.elements`, which is absent
for a plain call such as `cva([...])`, so `x` itself stays unbound. -/
theorem claim3_call_wrapped_binding_selectors :
    extractSelectorsFromSvelte claim3Ast = ["div", "class", ".a", ".b", ".c", ".d"]
    ∧ ".a" ∈ extractSelectorsFromSvelte claim3Ast
    ∧ ".b" ∈ extractSelectorsFromSvelte claim3Ast
    ∧ ".c" ∈ extractSelectorsFromSvelte claim3Ast
    ∧ ".d" ∈ extractSelectorsFromSvelte claim3Ast := by
  refine ⟨by decide, by decide, by decide, by decide, by decide⟩

/-- Claim C4.  On the attribute events of
`<div class="a b" id="x" data-foo="c d" aria-hidden="true">` the markup
scanner returns exactly `#x`, `.a`, `.b`, `.c`, `.d`, `.data-foo`; the
reserved attribute `aria-hidden` and its value contribute nothing. -/
theorem claim4_markup_exact_output :
    extractSelectorsFromHtml claim4Events = ["#x", ".a", ".b", ".c", ".d", ".data-foo"] := by
  decide

/-- Claim C5.  On the token stream of
`const x = "btn btn-primary"; const y = 42;` the script scanner returns
exactly `.btn` and `.btn-primary`; the numeric literal's token is not a
string token and contributes nothing. -/
theorem claim5_script_exact_output :
    extractSelectorsFromJS claim5Tokens = [".btn", ".btn-primary"] := by
  decide

/-- Claim C6.  A style rule `:global(.foo, .bar)` emits exactly `.foo`
and `.bar`: the raw text between the parentheses is split on commas,
each piece trimmed, registered without shape filtering and emitted
without re-prefixing.  The second conjunct shows the passthrough with a
selector (`:::`) that the shape filter rejects outright. -/
theorem claim6_global_passthrough :
    extractSelectorsFromSvelte claim6Ast = [".foo", ".bar"]
    ∧ extractSelectorsFromSvelte claim6AstColons = [":::", ".bar"]
    ∧ tokenFilter ":::" = false := by
  refine ⟨by decide, by decide, by decide⟩

/-- Claim C7.  The resolution step only consults identifiers that have a
binding-table entry: restricting the pending-use set to the bound
identifiers leaves the result unchanged, so an unbound identifier
contributes no selector (and the model is a total function — no error is
raised).  Concretely, `<div class={undeclaredVar}>` yields only the
element and attribute names. -/
theorem claim7_unresolved_identifier_dropped :
    (∀ st : WState,
      resolveIdentifiers st
        = resolveIdentifiers
            ⟨st.selectors, st.identifiers.filter (fun i => (st.ids.lookup i).isSome), st.ids⟩)
    ∧ extractSelectorsFromSvelte claim7Ast = ["div", "class"] := by
  refine ⟨?_, by decide⟩
  intro st
  exact foldl_resolveStep_filter st.ids st.identifiers st.selectors

/-- Claim C8.  Each extractor of the family is a pure function of its
input (all JS collections and regex objects are created fresh per
invocation), so two runs on identical input return the same list of
selectors — in particular the same set and the same exposed ordering. -/
theorem claim8_extractors_deterministic :
    ∀ (a : List (String × String)) (t : List AcornToken) (c : String) (r : List Node),
      (extractSelectorsFromHtml a = extractSelectorsFromHtml a
        ∧ extractSelectorsFromJS t = extractSelectorsFromJS t)
      ∧ (extractSelectorsWithRegex c = extractSelectorsWithRegex c
        ∧ extractSelectorsFromSvelte r = extractSelectorsFromSvelte r) :=
  fun _ _ _ _ => ⟨⟨rfl, rfl⟩, ⟨rfl, rfl⟩⟩

/-- Claim C9.  The markup scanner splits a `class` value on single
literal spaces with no filtering of empty tokens, so whenever the split
contains the empty token (empty value, consecutive spaces), the returned
sequence contains the bare string `"."`; in particular
`<div class="">` yields exactly `["."]`. -/
theorem claim9_empty_class_token :
    (∀ v : String, "" ∈ jsSplitCh ' ' v → "." ∈ extractSelectorsFromHtml [("class", v)])
    ∧ extractSelectorsFromHtml [("class", "")] = ["."]
    ∧ extractSelectorsFromHtml [("class", "a  b")] = [".a", ".", ".b"] := by
  refine ⟨?_, by decide, by decide⟩
  intro v hv
  have h1 : "" ∈ (jsSplitCh ' ' v).foldl setAdd [] := mem_foldl_setAdd.mpr (Or.inr hv)
  have h2 : addDot "" ∈ ((jsSplitCh ' ' v).foldl setAdd []).map addDot :=
    List.mem_map_of_mem addDot h1
  have h3 : ("." : String) = addDot "" := by decide
  rw [h3]
  exact h2

/-- Witness for claim C9 at the concrete input `<div class="">`. -/
theorem claim9_empty_class_token_witness :
    "" ∈ jsSplitCh ' ' "" ∧ "." ∈ extractSelectorsFromHtml [("class", "")] :=
  ⟨by decide, claim9_empty_class_token.1 "" (by decide)⟩

/-- Claim C10.  Every element of `extractSelectorsWithRegex`'s output
begins with a dot and does not end in a colon: each global match of the
filter regex is non-empty and, by the trailing look-behind, does not end
in `:`; the formatting step then prefixes a dot unless the match already
starts with one. -/
theorem claim10_regex_selectors_shape (code : String) (s : String)
    (h : s ∈ extractSelectorsWithRegex code) :
    s.data.head? = some '.' ∧ s.data.getLast? ≠ some ':' := by
  unfold extractSelectorsWithRegex at h
  rcases List.mem_map.mp h with ⟨t, ht, rfl⟩
  unfold jsSetOfList at ht
  have ht' : t ∈ (globalMatches code.data).map (fun m => String.mk m) := by
    rcases mem_foldl_setAdd.mp ht with h0 | h1
    · exact absurd h0 (List.not_mem_nil t)
    · exact h1
  rcases List.mem_map.mp ht' with ⟨m, hm, rfl⟩
  unfold globalMatches at hm
  have hprops := globalMatchesFuel_shape code.data.length code.data (Nat.le_refl _) m hm
  unfold addDot
  split
  · next hc => exact ⟨hc, hprops.2⟩
  · next hc =>
    rw [dotPrepend_data]
    refine ⟨rfl, ?_⟩
    cases m with
    | nil => exact absurd rfl hprops.1
    | cons a as =>
      show ('.' :: a :: as).getLast? ≠ some ':'
      rw [List.getLast?_cons_cons]
      exact hprops.2

/-- Witness for claim C10 at the concrete input `"hover:bg"`, whose
output is `[".hover:bg"]`. -/
theorem claim10_regex_selectors_shape_witness :
    (".hover:bg" : String).data.head? = some '.'
    ∧ (".hover:bg" : String).data.getLast? ≠ some ':' :=
  claim10_regex_selectors_shape "hover:bg" ".hover:bg" (by decide)
